import Mathlib

/-!
Verification development for the BlueskyAutoPoster repository (`poster.py`).

Texts are modelled as `List Char` (Python strings are sequences of Unicode
scalar values, so `len` is `List.length` and slicing is `take`/`drop`).
Byte counts of `str.encode` are modelled with `Char.utf8Size`.
-/

/-- Whitespace test matching Python's `str.isspace` / the `\s` class of the
`re` module on `str` patterns: the ASCII whitespace characters together with
the Unicode whitespace code points. -/
def isSpaceChar (c : Char) : Bool :=
  let n := c.toNat
  n = 0x20 || (0x9 ≤ n && n ≤ 0xd) || (0x1c ≤ n && n ≤ 0x1f) ||
  n = 0x85 || n = 0xa0 || n = 0x1680 || (0x2000 ≤ n && n ≤ 0x200a) ||
  n = 0x2028 || n = 0x2029 || n = 0x202f || n = 0x205f || n = 0x3000

/-- Python `str.lstrip()` (no argument): drop leading whitespace. -/
def pyLstrip (s : List Char) : List Char := s.dropWhile isSpaceChar

/-- Python `str.rstrip()` (no argument): drop trailing whitespace. -/
def pyRstrip (s : List Char) : List Char := (s.reverse.dropWhile isSpaceChar).reverse

/-- Python `str.strip()` (no argument): drop leading and trailing whitespace. -/
def pyStrip (s : List Char) : List Char := pyRstrip (pyLstrip s)

/-- Byte length of the UTF-8 encoding of a text, as produced by Python's
`str.encode` with the default encoding. -/
def utf8Len (l : List Char) : Nat := (l.map Char.utf8Size).sum

/-- The two-newline separator `"\n\n"` used by `create_post_content`. -/
def nl2 : List Char := [ '\n', '\n' ]

/-- Embedding of `create_post_content` (poster.py lines 88-113).  A `none`
result models the `sys.exit(1)` taken when the trimmed title or url is
empty.  The row-number argument of the source is used only in log output and
is omitted. -/
def create_post_content (title0 url0 hashtags0 : List Char) : Option (List Char) :=
  let title := pyStrip title0
  let url := pyStrip url0
  let hashtags := pyStrip hashtags0
  if title = [] || url = [] then none
  else
    let content := title ++ nl2 ++ url ++ nl2 ++ hashtags
    if 300 < content.length then
      let maxHashtagsLength : Int := 300 - ((title ++ nl2 ++ url ++ nl2).length : Int)
      if 0 < maxHashtagsLength then
        some (title ++ nl2 ++ url ++ nl2 ++ pyStrip (hashtags.take maxHashtagsLength.toNat))
      else
        some (title ++ nl2 ++ url)
    else
      some content

/-- Word-character test for the `\w` class of Python's `re` module,
restricted to its ASCII fragment (letters, digits and the underscore).
Every theorem below about the matcher is insensitive to which character
class is used, and every concrete input evaluated is ASCII, so the
non-ASCII word characters of the full Unicode class are not modelled. -/
def isWordChar (c : Char) : Bool :=
  c.isAlphanum || c = '_'

/-- Test that `pre` is an initial segment of `s` (how the regex engine
matches a literal such as `https://` at the current position). -/
def hasPre (pre s : List Char) : Bool := s.take pre.length = pre

/-- Greedy `\S+` step after a scheme literal of length `m` has matched:
fails when the run is empty, otherwise yields the match length minus one
(scheme plus run). -/
def urlRunAt (m : Nat) (s : List Char) : Option Nat :=
  if ((s.drop m).takeWhile (fun c => !isSpaceChar c)).length = 0 then none
  else some (m + ((s.drop m).takeWhile (fun c => !isSpaceChar c)).length - 1)

/-- Attempt to match the pattern `https?://\S+` at the head of `s`.
Returns `some k` when the match succeeds with length `k + 1` (a successful
match is never empty), `none` when the pattern does not match at this
position. -/
def urlTryAt (s : List Char) : Option Nat :=
  if hasPre "https://".toList s then urlRunAt 8 s
  else if hasPre "http://".toList s then urlRunAt 7 s
  else none

/-- Attempt to match the pattern `#\w+` at the head of `s`.  Returns
`some k` when the match succeeds with length `k + 1`. -/
def tagTryAt (s : List Char) : Option Nat :=
  match s with
  | '#' :: rest =>
    if (rest.takeWhile isWordChar).length = 0 then none
    else some ((rest.takeWhile isWordChar).length)
  | _ => none

/-- Left-to-right non-overlapping scan of `re.finditer`: at each position
try the pattern; on a match of length `k + 1` record the span and resume
right after it, otherwise advance one character.  The fuel argument is the
remaining text length, which each step strictly decreases. -/
def scanAux (tryAt : List Char → Option Nat) : Nat → List Char → Nat → List (Nat × Nat)
  | 0, _, _ => []
  | _ + 1, [], _ => []
  | fuel + 1, c :: rest, i =>
    match tryAt (c :: rest) with
    | some k => (i, i + (k + 1)) :: scanAux tryAt fuel ((c :: rest).drop (k + 1)) (i + (k + 1))
    | none => scanAux tryAt fuel rest (i + 1)

/-- All match spans of a pattern over `text`, in text order, as
half-open character-index intervals. -/
def reFindAll (tryAt : List Char → Option Nat) (text : List Char) : List (Nat × Nat) :=
  scanAux tryAt text.length text 0

/-- The single feature carried by a facet produced by poster.py: an
`app.bsky.richtext.facet#link` with its `uri`, or an
`app.bsky.richtext.facet#tag` with its `tag` text. -/
inductive FacetFeature where
  | link (uri : List Char)
  | tag (tag : List Char)
deriving DecidableEq

/-- A facet as built by `extract_url_facets` / `extract_hashtag_facets`:
the `index` byte offsets plus the one-element `features` list. -/
structure Facet where
  byteStart : Nat
  byteEnd : Nat
  feature : FacetFeature
deriving DecidableEq

/-- Facet built from a URL match span, mirroring poster.py lines 141-158:
`byteStart`/`byteEnd` are the UTF-8 byte lengths of the character prefixes
`content[:start]` and `content[:end]`, and the feature's uri is the matched
text `match.group(0)`. -/
def facetOfUrlSpan (content : List Char) (se : Nat × Nat) : Facet :=
  { byteStart := utf8Len (content.take se.1)
  , byteEnd := utf8Len (content.take se.2)
  , feature := FacetFeature.link ((content.drop se.1).take (se.2 - se.1)) }

/-- Facet built from a hashtag match span, mirroring poster.py lines
165-182: the feature's tag is the matched text with the leading `#`
removed. -/
def facetOfTagSpan (content : List Char) (se : Nat × Nat) : Facet :=
  { byteStart := utf8Len (content.take se.1)
  , byteEnd := utf8Len (content.take se.2)
  , feature := FacetFeature.tag (((content.drop se.1).take (se.2 - se.1)).drop 1) }

/-- Embedding of `extract_url_facets` (poster.py lines 137-159). -/
def extract_url_facets (content : List Char) : List Facet :=
  (reFindAll urlTryAt content).map (facetOfUrlSpan content)

/-- Embedding of `extract_hashtag_facets` (poster.py lines 161-183). -/
def extract_hashtag_facets (content : List Char) : List Facet :=
  (reFindAll tagTryAt content).map (facetOfTagSpan content)

/-- Embedding of `extract_first_url` (poster.py lines 185-191): `re.search`
returns the leftmost match of the same pattern, i.e. the head of the
`finditer` sequence. -/
def extract_first_url (content : List Char) : Option (List Char) :=
  (reFindAll urlTryAt content).head?.map
    (fun se => (content.drop se.1).take (se.2 - se.1))

/-- The combined facet list `url_facets + hashtag_facets` assembled by
`post_to_bluesky` (poster.py lines 413-415). -/
def all_facets (content : List Char) : List Facet :=
  extract_url_facets content ++ extract_hashtag_facets content

/-- Per-facet byte-offset contract relating a match span to the facet built
from it: the span is non-empty and within the text, `byteStart` is the
UTF-8 byte length of the prefix before the match, `byteEnd` the UTF-8 byte
length of the prefix through the end of the match, and
`byteStart < byteEnd ≤ utf8Len content`. -/
def spanFacetOk (content : List Char) (se : Nat × Nat) (f : Facet) : Prop :=
  se.1 < se.2 ∧ se.2 ≤ content.length ∧
  f.byteStart = utf8Len (content.take se.1) ∧
  f.byteEnd = utf8Len (content.take se.2) ∧
  f.byteStart < f.byteEnd ∧ f.byteEnd ≤ utf8Len content

/-- Helper: `dropWhile` never lengthens a list. -/
theorem dropWhile_length_le (p : Char → Bool) (l : List Char) :
    (l.dropWhile p).length ≤ l.length := by
  conv_rhs => rw [← List.takeWhile_append_dropWhile p l]
  rw [List.length_append]
  omega

/-- Helper: `takeWhile` never lengthens a list. -/
theorem takeWhile_length_le (p : Char → Bool) (l : List Char) :
    (l.takeWhile p).length ≤ l.length := by
  conv_rhs => rw [← List.takeWhile_append_dropWhile p l]
  rw [List.length_append]
  omega

/-- Helper: UTF-8 byte length distributes over append. -/
theorem utf8Len_append (a b : List Char) : utf8Len (a ++ b) = utf8Len a + utf8Len b := by
  simp [utf8Len]

/-- Helper: a non-empty text has positive UTF-8 byte length, since every
character encodes to at least one byte. -/
theorem utf8Len_pos {l : List Char} (h : l ≠ []) : 0 < utf8Len l := by
  cases l with
  | nil => exact absurd rfl h
  | cons c t =>
    have hc := Char.utf8Size_pos c
    simp only [utf8Len, List.map_cons, List.sum_cons]
    omega

/-- Helper: decomposition of UTF-8 byte length at a cut point. -/
theorem utf8Len_take_add_drop (l : List Char) (n : Nat) :
    utf8Len l = utf8Len (l.take n) + utf8Len (l.drop n) := by
  conv_lhs => rw [← List.take_append_drop n l]
  exact utf8Len_append _ _

/-- Helper: byte length of a prefix is at most that of the whole text. -/
theorem utf8Len_take_le (l : List Char) (n : Nat) :
    utf8Len (l.take n) ≤ utf8Len l := by
  rw [utf8Len_take_add_drop l n]
  omega

/-- Helper: byte lengths of prefixes grow strictly across a character of the
text. -/
theorem utf8Len_take_lt (l : List Char) {a b : Nat} (hab : a < b) (hb : b ≤ l.length) :
    utf8Len (l.take a) < utf8Len (l.take b) := by
  have h1 : (l.take b).take a = l.take a := by
    rw [List.take_take]
    congr 1
    omega
  have h2 : utf8Len (l.take b) = utf8Len (l.take a) + utf8Len ((l.take b).drop a) := by
    conv_lhs => rw [utf8Len_take_add_drop (l.take b) a]
    rw [h1]
  have h3 : ((l.take b).drop a) ≠ [] := by
    intro hnil
    have := congrArg List.length hnil
    rw [List.length_drop, List.length_take] at this
    simp at this
    omega
  have := utf8Len_pos h3
  omega

/-- Helper: a literal match consumes no more than the text available. -/
theorem hasPre_length_le {pre s : List Char} (h : hasPre pre s = true) :
    pre.length ≤ s.length := by
  simp only [hasPre, decide_eq_true_eq] at h
  have hlen := congrArg List.length h
  rw [List.length_take] at hlen
  omega

/-- Helper: a successful URL match at a position fits inside the remaining
text and is non-empty. -/
theorem urlRunAt_bound {m : Nat} {s : List Char} {k : Nat}
    (hm : m ≤ s.length) (h : urlRunAt m s = some k) : k + 1 ≤ s.length := by
  unfold urlRunAt at h
  have hrun := takeWhile_length_le (fun c => !isSpaceChar c) (s.drop m)
  rw [List.length_drop] at hrun
  split at h
  · exact absurd h (by simp)
  · next hne =>
    have := Option.some.inj h
    omega

/-- Helper: a successful URL match at a position fits inside the remaining
text and is non-empty. -/
theorem urlTryAt_bound {s : List Char} {k : Nat} (h : urlTryAt s = some k) :
    k + 1 ≤ s.length := by
  unfold urlTryAt at h
  split at h
  · next hpre =>
    have h8 : ("https://".toList).length ≤ s.length := hasPre_length_le hpre
    simp only [List.length_cons] at h8
    exact urlRunAt_bound (by simpa using h8) h
  · split at h
    · next hpre =>
      have h7 : ("http://".toList).length ≤ s.length := hasPre_length_le hpre
      simp only [List.length_cons] at h7
      exact urlRunAt_bound (by simpa using h7) h
    · exact absurd h (by simp)

/-- Helper: a successful hashtag match at a position fits inside the
remaining text and is non-empty. -/
theorem tagTryAt_bound {s : List Char} {k : Nat} (h : tagTryAt s = some k) :
    k + 1 ≤ s.length := by
  unfold tagTryAt at h
  split at h
  · next rest =>
    have hrun := takeWhile_length_le isWordChar rest
    split at h
    · exact absurd h (by simp)
    · next hne =>
      have := Option.some.inj h
      simp only [List.length_cons]
      omega
  · exact absurd h (by simp)

/-- Helper: every span the scanner emits starts at or after the base index,
is non-empty, and ends within the text handed to the scanner. -/
theorem scanAux_spans {tryAt : List Char → Option Nat}
    (hbound : ∀ s k, tryAt s = some k → k + 1 ≤ s.length) :
    ∀ (fuel : Nat) (s : List Char) (i a b : Nat),
      (a, b) ∈ scanAux tryAt fuel s i → i ≤ a ∧ a < b ∧ b ≤ i + s.length := by
  intro fuel
  induction fuel with
  | zero =>
    intro s i a b h
    simp [scanAux] at h
  | succ n ih =>
    intro s i a b h
    cases s with
    | nil => simp [scanAux] at h
    | cons c rest =>
      rw [scanAux] at h
      cases htry : tryAt (c :: rest) with
      | some k =>
        rw [htry] at h
        have hk := hbound _ _ htry
        simp only [List.mem_cons] at h
        rcases h with h | h
        · have h1 : a = i := congrArg Prod.fst h
          have h2 : b = i + (k + 1) := congrArg Prod.snd h
          simp only [List.length_cons] at hk ⊢
          omega
        · have := ih _ _ _ _ h
          rw [List.length_drop] at this
          simp only [List.length_cons] at hk this ⊢
          omega
      | none =>
        rw [htry] at h
        have := ih rest (i + 1) a b h
        simp only [List.length_cons]
        omega

/-- Helper: every span found over a whole text is non-empty and within the
text. -/
theorem reFindAll_spans {tryAt : List Char → Option Nat}
    (hbound : ∀ s k, tryAt s = some k → k + 1 ≤ s.length)
    (text : List Char) {a b : Nat} (h : (a, b) ∈ reFindAll tryAt text) :
    a < b ∧ b ≤ text.length := by
  have := scanAux_spans hbound text.length text 0 a b h
  omega

/-- Helper: the span-to-facet contract holds for every facet built from an
in-range span by the URL facet builder. -/
theorem spanFacetOk_url (content : List Char) {se : Nat × Nat}
    (h1 : se.1 < se.2) (h2 : se.2 ≤ content.length) :
    spanFacetOk content se (facetOfUrlSpan content se) := by
  refine ⟨h1, h2, rfl, rfl, ?_, ?_⟩
  · exact utf8Len_take_lt content h1 h2
  · exact utf8Len_take_le content se.2

/-- Helper: the span-to-facet contract holds for every facet built from an
in-range span by the hashtag facet builder. -/
theorem spanFacetOk_tag (content : List Char) {se : Nat × Nat}
    (h1 : se.1 < se.2) (h2 : se.2 ≤ content.length) :
    spanFacetOk content se (facetOfTagSpan content se) := by
  refine ⟨h1, h2, rfl, rfl, ?_, ?_⟩
  · exact utf8Len_take_lt content h1 h2
  · exact utf8Len_take_le content se.2

/-- Claim C2: for every input text, every facet emitted by
`extract_url_facets` and `extract_hashtag_facets` carries `byteStart` equal
to the UTF-8 byte length of the text prefix before its match span and
`byteEnd` equal to the UTF-8 byte length of the prefix through the end of
the span, and satisfies `byteStart < byteEnd ≤ utf8Len text`.  The facet
lists are related span-by-span to the match spans the extractors iterate
over. -/
theorem C2_facet_byte_offsets (content : List Char) :
    List.Forall₂ (spanFacetOk content) (reFindAll urlTryAt content)
      (extract_url_facets content) ∧
    List.Forall₂ (spanFacetOk content) (reFindAll tagTryAt content)
      (extract_hashtag_facets content) := by
  constructor
  · rw [extract_url_facets, List.forall₂_map_right_iff, List.forall₂_same]
    intro se hse
    obtain ⟨h1, h2⟩ :=
      reFindAll_spans (fun s k h => urlTryAt_bound h) content
        (a := se.1) (b := se.2) (by simpa using hse)
    exact spanFacetOk_url content h1 h2
  · rw [extract_hashtag_facets, List.forall₂_map_right_iff, List.forall₂_same]
    intro se hse
    obtain ⟨h1, h2⟩ :=
      reFindAll_spans (fun s k h => tagTryAt_bound h) content
        (a := se.1) (b := se.2) (by simpa using hse)
    exact spanFacetOk_tag content h1 h2

/-- Claim C5, counterexample: on the text `"See #x at https://a.b/c#y"` the
hashtag pass emits two Tag facets, `x` and also `y` — the `#y` fragment
inside the URL does match the tag pattern, so the claimed "exactly one Tag
facet" is false. -/
theorem C5_counterexample :
    (extract_hashtag_facets "See #x at https://a.b/c#y".toList).map Facet.feature =
      [ FacetFeature.tag "x".toList, FacetFeature.tag "y".toList ] := by
  decide

/-- Claim C5, amended: on `"See #x at https://a.b/c#y"` the combined facet
list of `post_to_bluesky` holds exactly one Link facet, for
`https://a.b/c#y` (the URL pattern is greedy to non-whitespace, so the
trailing fragment is included), and two Tag facets, `x` and `y` (the `#y`
fragment inside the URL also matches the tag pattern), the Link facet
ordered before both Tag facets. -/
theorem C5_amended :
    all_facets "See #x at https://a.b/c#y".toList =
      [ { byteStart := 10, byteEnd := 25
          , feature := FacetFeature.link "https://a.b/c#y".toList }
      , { byteStart := 4, byteEnd := 6, feature := FacetFeature.tag "x".toList }
      , { byteStart := 23, byteEnd := 25, feature := FacetFeature.tag "y".toList } ] := by
  decide

/-- Claim C9: `extract_first_url` returns exactly the uri payload of the
first Link facet produced by `extract_url_facets` on the same text (both
are driven by the same leftmost match), and it returns `none` exactly when
the facet list is empty. -/
theorem C9_first_url_agrees (content : List Char) :
    (extract_url_facets content).head?.map Facet.feature =
      (extract_first_url content).map FacetFeature.link ∧
    (extract_first_url content = none ↔ extract_url_facets content = []) := by
  cases h : reFindAll urlTryAt content with
  | nil =>
    constructor
    · simp [extract_url_facets, extract_first_url, h]
    · simp [extract_url_facets, extract_first_url, h]
  | cons se rest =>
    constructor
    · simp [extract_url_facets, extract_first_url, h, facetOfUrlSpan]
    · simp [extract_url_facets, extract_first_url, h]

/-- Helper: every list is its own rstrip followed by the stripped tail. -/
theorem pyRstrip_append (l : List Char) : ∃ t, l = pyRstrip l ++ t := by
  refine ⟨(l.reverse.takeWhile isSpaceChar).reverse, ?_⟩
  conv_lhs =>
    rw [← List.reverse_reverse l,
      ← List.takeWhile_append_dropWhile isSpaceChar l.reverse]
  rw [List.reverse_append, pyRstrip]

/-- Helper: the head surviving a `dropWhile` fails the predicate. -/
theorem head?_dropWhile_not (p : Char → Bool) :
    ∀ (l : List Char) {c : Char}, (l.dropWhile p).head? = some c → p c = false := by
  intro l
  induction l with
  | nil => intro c h; simp at h
  | cons a t ih =>
    intro c h
    rw [List.dropWhile_cons] at h
    by_cases hp : p a
    · rw [if_pos hp] at h
      exact ih h
    · rw [if_neg hp] at h
      simp only [List.head?_cons, Option.some.injEq] at h
      subst h
      exact Bool.not_eq_true _ ▸ (by simpa using hp)

/-- Helper: `dropWhile` is the identity when the head fails the predicate. -/
theorem dropWhile_eq_self_of_head? {p : Char → Bool} {l : List Char}
    (h : ∀ c, l.head? = some c → p c = false) : l.dropWhile p = l := by
  cases l with
  | nil => rfl
  | cons a t =>
    rw [List.dropWhile_cons, if_neg]
    simp [h a rfl]

/-- Helper: the head of a prefix is the head of the list. -/
theorem head?_take {l : List Char} {n : Nat} {c : Char}
    (h : (l.take n).head? = some c) : l.head? = some c := by
  cases l with
  | nil => simp at h
  | cons a t =>
    cases n with
    | zero => simp at h
    | succ m => simpa using h

/-- Helper: a stripped string never starts with whitespace. -/
theorem pyStrip_head? {l : List Char} {c : Char}
    (hc : (pyStrip l).head? = some c) : isSpaceChar c = false := by
  obtain ⟨t, ht⟩ := pyRstrip_append (pyLstrip l)
  have hhead : (pyLstrip l).head? = some c := by
    rw [ht, List.head?_append]
    rw [pyStrip] at hc
    rw [hc]
    rfl
  exact head?_dropWhile_not isSpaceChar l hhead

/-- Helper: on a prefix of an already-stripped string, Python's two-sided
`strip` coincides with `rstrip`, because the prefix has no leading
whitespace to remove. -/
theorem pyStrip_take_pyStrip (l : List Char) (n : Nat) :
    pyStrip ((pyStrip l).take n) = pyRstrip ((pyStrip l).take n) := by
  rw [pyStrip, pyLstrip]
  congr 1
  exact dropWhile_eq_self_of_head? (fun c hc => pyStrip_head? (head?_take hc))

/-- Helper: `rstrip` never lengthens a string. -/
theorem pyRstrip_length_le (l : List Char) : (pyRstrip l).length ≤ l.length := by
  rw [pyRstrip, List.length_reverse]
  have := dropWhile_length_le isSpaceChar l.reverse
  simpa using this

/-- Helper: `strip` never lengthens a string. -/
theorem pyStrip_length_le (l : List Char) : (pyStrip l).length ≤ l.length := by
  refine le_trans (pyRstrip_length_le _) ?_
  rw [pyLstrip]
  exact dropWhile_length_le isSpaceChar l

/-- Claim C1, amended: for every entry whose trimmed title and url are
non-empty, the text returned by `create_post_content` has character length
at most 300 in every case except the non-positive-tag-budget fallback,
where it is the bare `title ++ "\n\n" ++ url` form of length
`len(title) + len(url) + 2`; so the length is always at most
`max 300 (len(title) + len(url) + 2)` and the 300 ceiling can be exceeded
exactly when the bare form itself is longer than 300. -/
theorem C1_length_bound (t u h r : List Char)
    (hr : create_post_content t u h = some r) :
    r.length ≤ max 300 ((pyStrip t).length + (pyStrip u).length + 2) := by
  simp only [create_post_content] at hr
  split at hr
  · exact absurd hr (by simp)
  · split at hr
    · split at hr
      · rename_i hover hpos
        have hr2 := (Option.some.inj hr).symm
        subst hr2
        have htail :
            (pyStrip ((pyStrip h).take
              ((300 - ((pyStrip t ++ nl2 ++ pyStrip u ++ nl2).length : Int)).toNat))).length ≤
            (300 - ((pyStrip t ++ nl2 ++ pyStrip u ++ nl2).length : Int)).toNat := by
          refine le_trans (pyStrip_length_le _) ?_
          rw [List.length_take]
          exact Nat.min_le_left _ _
        simp only [List.length_append, nl2, List.length_cons, List.length_nil] at *
        omega
      · rename_i hover hpos
        have hr2 := (Option.some.inj hr).symm
        subst hr2
        simp only [List.length_append, nl2, List.length_cons, List.length_nil]
        omega
    · rename_i hover
      have hr2 := (Option.some.inj hr).symm
      subst hr2
      simp only [List.length_append, nl2, List.length_cons, List.length_nil] at hover ⊢
      omega

/-- Claim C1, witness: on the entry `title="T"`, `url="https://e.co"`,
`hashtags="#a #b"` the composed text indeed satisfies the length bound. -/
theorem C1_witness :
    ("T\n\nhttps://e.co\n\n#a #b".toList).length ≤
      max 300 ((pyStrip "T".toList).length + (pyStrip "https://e.co".toList).length + 2) :=
  C1_length_bound "T".toList "https://e.co".toList "#a #b".toList _ (by decide)

set_option maxRecDepth 4000

/-- Claim C1, counterexample: a 300-character title with a non-empty url
makes the tag budget non-positive, and the emitted fallback text
`title ++ "\n\n" ++ url` has length 314 > 300, so the claimed 300-character
ceiling fails in the fallback case. -/
theorem C1_counterexample :
    ∃ r, create_post_content (List.replicate 300 'a') "https://e.co".toList [] = some r ∧
      300 < r.length := by
  refine ⟨List.replicate 300 'a' ++ nl2 ++ "https://e.co".toList, by decide, by decide⟩

/-- Claim C6: for every entry with non-empty trimmed title and url, the
composer joins title, url, and tags with double newlines; when the joined
string exceeds 300 characters it computes the tag budget
`300 - len(title ++ "\n\n" ++ url ++ "\n\n")`, and if the budget is
positive it emits the head followed by the first budget characters of the
tag string with trailing whitespace stripped, else exactly
`title ++ "\n\n" ++ url` with no trailing separator; and on
`title="T"`, `url="https://e.co"`, `hashtags="#a #b"` the output is
exactly `"T\n\nhttps://e.co\n\n#a #b"`. -/
theorem C6_composer_contract (t u h : List Char)
    (ht : pyStrip t ≠ []) (hu : pyStrip u ≠ []) :
    (create_post_content t u h =
      if (pyStrip t ++ nl2 ++ pyStrip u ++ nl2 ++ pyStrip h).length ≤ 300 then
        some (pyStrip t ++ nl2 ++ pyStrip u ++ nl2 ++ pyStrip h)
      else if (pyStrip t ++ nl2 ++ pyStrip u ++ nl2).length < 300 then
        some ((pyStrip t ++ nl2 ++ pyStrip u ++ nl2) ++
          pyRstrip ((pyStrip h).take
            (300 - (pyStrip t ++ nl2 ++ pyStrip u ++ nl2).length)))
      else
        some (pyStrip t ++ nl2 ++ pyStrip u)) ∧
    create_post_content "T".toList "https://e.co".toList "#a #b".toList =
      some "T\n\nhttps://e.co\n\n#a #b".toList := by
  constructor
  · simp only [create_post_content]
    rw [if_neg (by simp [ht, hu])]
    by_cases hfit : (pyStrip t ++ nl2 ++ pyStrip u ++ nl2 ++ pyStrip h).length ≤ 300
    · rw [if_neg (by omega), if_pos hfit]
    · rw [if_pos (by omega), if_neg hfit]
      by_cases hb : (pyStrip t ++ nl2 ++ pyStrip u ++ nl2).length < 300
      · have hposInt : (0 : Int) <
            300 - ((pyStrip t ++ nl2 ++ pyStrip u ++ nl2).length : Int) := by omega
        rw [if_pos hposInt, if_pos hb]
        have htoNat : ((300 : Int) -
            ((pyStrip t ++ nl2 ++ pyStrip u ++ nl2).length : Int)).toNat =
            300 - (pyStrip t ++ nl2 ++ pyStrip u ++ nl2).length := by omega
        rw [htoNat, pyStrip_take_pyStrip]
      · have hnegInt : ¬ (0 : Int) <
            300 - ((pyStrip t ++ nl2 ++ pyStrip u ++ nl2).length : Int) := by omega
        rw [if_neg hnegInt, if_neg hb]
  · decide

/-- Claim C6, witness: the contract applied at the concrete entry
`title="T"`, `url="U"`, `hashtags="#a"`, whose joined text fits in 300
characters. -/
theorem C6_witness :
    create_post_content "T".toList "U".toList "#a".toList =
      some "T\n\nU\n\n#a".toList := by
  have hc := (C6_composer_contract "T".toList "U".toList "#a".toList
    (by decide) (by decide)).1
  rw [if_pos (by decide)] at hc
  exact hc.trans (by decide)

/-- Claim C10: for every entry whose trimmed title and url are non-empty,
whose trimmed hashtags string is empty, and whose joined text fits within
300 characters, `create_post_content` returns
`title ++ "\n\n" ++ url ++ "\n\n"` — the trailing double-newline separator
before the empty tag section is retained. -/
theorem C10_trailing_separator (t u h : List Char)
    (ht : pyStrip t ≠ []) (hu : pyStrip u ≠ []) (hh : pyStrip h = [])
    (hlen : (pyStrip t).length + (pyStrip u).length + 4 ≤ 300) :
    create_post_content t u h = some (pyStrip t ++ nl2 ++ pyStrip u ++ nl2) := by
  simp only [create_post_content, hh]
  rw [if_neg (by simp [ht, hu])]
  rw [if_neg (by simp [nl2, List.length_append]; omega)]
  simp

/-- Claim C10, witness: at `title="T"`, `url="U"`, `hashtags="  "`
(whitespace-only, so empty after trimming) the output is `"T\n\nU\n\n"`,
with the trailing separator retained. -/
theorem C10_witness :
    create_post_content "T".toList "U".toList "  ".toList =
      some "T\n\nU\n\n".toList :=
  (C10_trailing_separator "T".toList "U".toList "  ".toList
    (by decide) (by decide) (by decide) (by decide)).trans (by decide)

/-- The cycle step of `main` (poster.py line 42):
`next_index = (last_index + 1) % len(posts)`.  Python's `%` with a positive
modulus returns a value in `[0, N)`, which is Lean's `Int.emod` as well. -/
def next_index (last : Int) (n : Nat) : Int := (last + 1) % (n : Int)

/-- Iterated application of the cycle step: the tracker position after `k`
runs starting from persisted position `last`. -/
def cycleIter (n : Nat) (last : Int) : Nat → Int
  | 0 => last
  | k + 1 => next_index (cycleIter n last k) n

/-- The indices visited by `n` consecutive runs starting from `last`:
positions after run 1, run 2, ..., run `n`. -/
def visitedIndices (n : Nat) (last : Int) : List Int :=
  (List.range n).map (fun j => cycleIter n last (j + 1))

/-- Helper: closed form of the iterated cycle step — after `k + 1` runs the
position is `(last + k + 1) mod n`. -/
theorem cycleIter_succ_closed (n : Nat) (last : Int) :
    ∀ k : Nat, cycleIter n last (k + 1) = (last + k + 1) % (n : Int) := by
  intro k
  induction k with
  | zero =>
    show next_index last n = _
    rw [next_index]
    norm_num
  | succ m ih =>
    show next_index (cycleIter n last (m + 1)) n = _
    rw [ih, next_index, Int.emod_add_emod]
    push_cast
    ring_nf

/-- Helper: closed form restated for any positive run count. -/
theorem cycleIter_closed (n : Nat) (last : Int) (k : Nat) (hk : 1 ≤ k) :
    cycleIter n last k = (last + k) % (n : Int) := by
  obtain ⟨m, rfl⟩ : ∃ m, k = m + 1 := ⟨k - 1, by omega⟩
  rw [cycleIter_succ_closed n last m]
  congr 1
  push_cast
  ring

/-- Helper: adding the modulus once does not change an integer remainder. -/
theorem emod_add_self_int (a : Int) (n : Nat) :
    (a + (n : Int)) % (n : Int) = a % (n : Int) := by
  have h := Int.add_mul_emod_self_left a (n : Int) 1
  rw [mul_one] at h
  exact h

/-- Helper: membership — every index `i < n` is visited within `n` runs. -/
theorem visitedIndices_mem (n : Nat) (last : Int) (hn : 0 < n) :
    ∀ i : Nat, i < n → (i : Int) ∈ visitedIndices n last := by
  intro i hi
  have hn0 : (n : Int) ≠ 0 := by omega
  have hnpos : (0 : Int) < n := by omega
  have hj0 : 0 ≤ ((i : Int) - last - 1) % (n : Int) := Int.emod_nonneg _ hn0
  have hjlt : ((i : Int) - last - 1) % (n : Int) < n := Int.emod_lt_of_pos _ hnpos
  refine List.mem_map.mpr ⟨(((i : Int) - last - 1) % (n : Int)).toNat,
    List.mem_range.mpr (by omega), ?_⟩
  rw [cycleIter_succ_closed]
  have hcast : ((((i : Int) - last - 1) % (n : Int)).toNat : Int)
      = ((i : Int) - last - 1) % (n : Int) := by omega
  rw [hcast]
  have hsplit : last + ((i : Int) - last - 1) % (n : Int) + 1
      = (last + 1) + ((i : Int) - last - 1) % (n : Int) := by ring
  rw [hsplit]
  conv_lhs => rw [Int.add_emod]
  rw [Int.emod_emod_of_dvd _ dvd_rfl, ← Int.add_emod]
  have hid : last + 1 + ((i : Int) - last - 1) = (i : Int) := by ring
  rw [hid]
  exact Int.emod_eq_of_lt (by omega) (by omega)

/-- Helper: the `n` visited indices are pairwise distinct. -/
theorem visitedIndices_nodup (n : Nat) (last : Int) :
    (visitedIndices n last).Nodup := by
  refine List.Nodup.map_on ?_ (List.nodup_range n)
  intro x hx y hy hxy
  rw [List.mem_range] at hx hy
  rw [cycleIter_closed n last (x + 1) (by omega),
    cycleIter_closed n last (y + 1) (by omega)] at hxy
  have hsub : ((last + (x + 1 : Nat)) - (last + (y + 1 : Nat))) % (n : Int) = 0 :=
    Int.emod_eq_emod_iff_emod_sub_eq_zero.mp hxy
  have hd : (n : Int) ∣ ((x : Int) - (y : Int)) := by
    refine Int.dvd_of_emod_eq_zero ?_
    have hdiff : (last + (x + 1 : Nat)) - (last + (y + 1 : Nat)) = (x : Int) - (y : Int) := by
      push_cast
      ring
    rw [← hdiff]
    exact hsub
  have habs : |(x : Int) - (y : Int)| < (n : Int) := by
    rw [abs_lt]
    omega
  have := Int.eq_zero_of_abs_lt_dvd hd habs
  omega

/-- Claim C3: for catalog length `N > 0` and any starting
`lastIndex ∈ [-1, N-1]`, the next index is `(lastIndex + 1) mod N`;
applying the step `N` times visits every index of `[0, N-1]` exactly once
(the visited list has no duplicates and contains every index, hence is a
permutation of the range); and the visit sequence has exact period `N`
(run `k + N` lands on the same index as run `k`, so after `N` runs the
tracker is back at the starting position of the cycle: its next step
produces the same index as the first one did, and a non-sentinel start is
restored exactly). -/
theorem C3_round_robin (n : Nat) (last : Int)
    (hn : 0 < n) (hlo : -1 ≤ last) (hhi : last ≤ (n : Int) - 1) :
    cycleIter n last 1 = next_index last n ∧
    (visitedIndices n last).Nodup ∧
    (∀ i : Nat, i < n → (i : Int) ∈ visitedIndices n last) ∧
    (∀ k : Nat, 1 ≤ k → cycleIter n last (k + n) = cycleIter n last k) ∧
    next_index (cycleIter n last n) n = next_index last n ∧
    (0 ≤ last → cycleIter n last n = last) := by
  refine ⟨rfl, visitedIndices_nodup n last, visitedIndices_mem n last hn, ?_, ?_, ?_⟩
  · intro k hk
    rw [cycleIter_closed n last (k + n) (by omega), cycleIter_closed n last k hk]
    push_cast
    have hassoc : last + ((k : Int) + (n : Int)) = (last + (k : Int)) + (n : Int) := by ring
    rw [hassoc, emod_add_self_int]
  · rw [cycleIter_closed n last n (by omega), next_index, next_index,
      Int.emod_add_emod]
    have hassoc : last + (n : Int) + 1 = (last + 1) + (n : Int) := by ring
    rw [hassoc, emod_add_self_int]
  · intro hpos
    rw [cycleIter_closed n last n (by omega), emod_add_self_int]
    exact Int.emod_eq_of_lt hpos (by omega)

/-- Claim C3, witness: the round-robin property at catalog length 3
starting from the pre-first-run sentinel -1. -/
theorem C3_witness :
    cycleIter 3 (-1) 1 = next_index (-1) 3 ∧
    (visitedIndices 3 (-1)).Nodup ∧
    (∀ i : Nat, i < 3 → (i : Int) ∈ visitedIndices 3 (-1)) ∧
    (∀ k : Nat, 1 ≤ k → cycleIter 3 (-1) (k + 3) = cycleIter 3 (-1) k) ∧
    next_index (cycleIter 3 (-1) 3) 3 = next_index (-1) 3 ∧
    (0 ≤ (-1 : Int) → cycleIter 3 (-1) 3 = -1) :=
  C3_round_robin 3 (-1) (by norm_num) (by norm_num) (by norm_num)

/-- Python `int()` applied to an attribute string, as in
`int(img['width'])`: surrounding whitespace is allowed, then an optional
sign and one or more ASCII digits; anything else raises `ValueError`
(modelled as `none`).  Python additionally accepts underscore digit
separators and non-ASCII decimal digits; no theorem below depends on
which strings parse, only on the parse being fallible. -/
def parseDigits (ds : List Char) : Option Nat :=
  if ds = [] then none
  else if ds.all Char.isDigit then
    some (ds.foldl (fun a c => a * 10 + (c.toNat - 48)) 0)
  else none

def pyInt (s : List Char) : Option Int :=
  match pyStrip s with
  | '+' :: ds => (parseDigits ds).map (fun v => (v : Int))
  | '-' :: ds => (parseDigits ds).map (fun v => -(v : Int))
  | ds => (parseDigits ds).map (fun v => (v : Int))

/-- An `<img>` element with an `src` attribute, as returned by
`soup.find_all('img', src=True)` (poster.py line 253).  For `width`,
`height` and `alt`, `none` models an attribute that is absent or empty
(falsy), collapsing the truthiness guards of the source. -/
structure ImgTag where
  src : List Char
  width : Option (List Char)
  height : Option (List Char)
  alt : Option (List Char)
deriving DecidableEq

/-- The parsed document as `get_webpage_metadata` consumes it.  Each meta
slot is `none` when the tag is absent, has no `content` attribute, or its
content is empty (falsy) — the three cases the source's
`if tag and tag.get('content')` guards collapse.  `titleTag` is the text of
the `<title>` element when the element is present (its text may be
empty). -/
structure Soup where
  titleTag : Option (List Char)
  og_title : Option (List Char)
  og_description : Option (List Char)
  og_image : Option (List Char)
  og_image_alt : Option (List Char)
  twitter_image : Option (List Char)
  twitter_image_alt : Option (List Char)
  name_image : Option (List Char)
  imgs : List ImgTag
deriving DecidableEq

/-- The record `get_webpage_metadata` returns. -/
structure PageMetadata where
  title : List Char
  description : List Char
  image : Option (List Char)
  image_alt : List Char
deriving DecidableEq

/-- The fallback image scan of poster.py lines 252-265: walk the inline
`<img>` elements, skip (continue past) any whose declared width or height
parses below 100, and take the first survivor.  `int()` on a non-numeric
declared size raises, which aborts the whole metadata computation
(`Except.error`). -/
def firstLargeImage : List ImgTag → Except Unit (Option ImgTag)
  | [] => Except.ok none
  | img :: rest =>
    match img.width with
    | some w =>
      match pyInt w with
      | none => Except.error ()
      | some wv =>
        if wv < 100 then firstLargeImage rest
        else
          match img.height with
          | some s2 =>
            match pyInt s2 with
            | none => Except.error ()
            | some hv =>
              if hv < 100 then firstLargeImage rest else Except.ok (some img)
          | none => Except.ok (some img)
    | none =>
      match img.height with
      | some s2 =>
        match pyInt s2 with
        | none => Except.error ()
        | some hv =>
          if hv < 100 then firstLargeImage rest else Except.ok (some img)
      | none => Except.ok (some img)

/-- The successful-fetch body of `get_webpage_metadata` (poster.py lines
202-271): title from the `<title>` element (stripped) defaulting to the
url, overridden by a truthy `og:title`; description from a truthy
`og:description`; preview image url from the precedence chain
`og:image` → `twitter:image` → `<meta name="image">` → first large inline
image, with the paired alt text for whichever source hit; a discovered
image url is resolved against the page url by `joinUrl` (`urllib.parse.urljoin`),
and an empty (falsy) discovered url leaves the image unset. -/
def metadataOfSoup (joinUrl : List Char → List Char → List Char)
    (url : List Char) (soup : Soup) : Except Unit PageMetadata := do
  let title :=
    match soup.og_title with
    | some c => c
    | none =>
      match soup.titleTag with
      | some t => pyStrip t
      | none => url
  let description :=
    match soup.og_description with
    | some c => c
    | none => []
  let found : Option (List Char) × List Char ←
    match soup.og_image with
    | some u => pure (some u, (soup.og_image_alt).getD [])
    | none =>
      match soup.twitter_image with
      | some u => pure (some u, (soup.twitter_image_alt).getD [])
      | none =>
        match soup.name_image with
        | some u => pure (some u, [])
        | none => do
          match ← firstLargeImage soup.imgs with
          | some img => pure (some img.src, (img.alt).getD [])
          | none => pure (none, [])
  let image :=
    match found.1 with
    | some u => if u = [] then none else some (joinUrl url u)
    | none => none
  return { title := title, description := description
         , image := image, image_alt := found.2 }

/-- Embedding of `get_webpage_metadata` (poster.py lines 193-280): the
fetch — `requests.get`, `raise_for_status` and the BeautifulSoup parse —
is the external collaborator `fetch`; any exception in the fetch or in the
metadata body yields the default record and nothing escapes. -/
def get_webpage_metadata (joinUrl : List Char → List Char → List Char)
    (fetch : List Char → Except Unit Soup) (url : List Char) : PageMetadata :=
  match fetch url >>= metadataOfSoup joinUrl url with
  | Except.ok m => m
  | Except.error _ =>
    { title := url, description := [], image := none, image_alt := [] }

/-- Claim C7: for every input URL, if the page fetch raises, or the fetch
succeeds and any step of the metadata body raises, `get_webpage_metadata`
returns exactly the default record
`{title: url, description: "", image: none, image_alt: ""}`; being a total
function it lets nothing escape to the caller. -/
theorem C7_metadata_soft_fail (joinUrl : List Char → List Char → List Char)
    (fetch : List Char → Except Unit Soup) (url : List Char) :
    (fetch url = Except.error () →
      get_webpage_metadata joinUrl fetch url =
        { title := url, description := [], image := none, image_alt := [] }) ∧
    (∀ soup, fetch url = Except.ok soup →
      metadataOfSoup joinUrl url soup = Except.error () →
      get_webpage_metadata joinUrl fetch url =
        { title := url, description := [], image := none, image_alt := [] }) := by
  constructor
  · intro hf
    simp [get_webpage_metadata, hf, Bind.bind, Except.bind]
  · intro soup hf hm
    simp [get_webpage_metadata, hf, hm, Bind.bind, Except.bind]

/-- Claim C7, witness: concrete failing fetch, and concrete successful
fetch whose inline-image scan raises on the non-numeric width `"abc"`;
both yield exactly the default record. -/
theorem C7_witness :
    get_webpage_metadata (fun _ u => u) (fun _ => Except.error ())
      "https://x.y".toList =
      { title := "https://x.y".toList, description := []
      , image := none, image_alt := [] } ∧
    get_webpage_metadata (fun _ u => u)
      (fun _ => Except.ok
        { titleTag := none, og_title := none, og_description := none
        , og_image := none, og_image_alt := none, twitter_image := none
        , twitter_image_alt := none, name_image := none
        , imgs := [ { src := "i.png".toList, width := some "abc".toList
                    , height := none, alt := none } ] })
      "https://x.y".toList =
      { title := "https://x.y".toList, description := []
      , image := none, image_alt := [] } := by
  constructor
  · exact (C7_metadata_soft_fail (fun _ u => u) (fun _ => Except.error ())
      "https://x.y".toList).1 rfl
  · exact (C7_metadata_soft_fail (fun _ u => u) _ "https://x.y".toList).2
      _ rfl (by rfl)

/-- The fixed search table of `resize_image_if_needed` (poster.py lines
310-326): `(resize_factor, quality)` pairs, most conservative first. -/
def strategies : List (Rat × Nat) :=
  [ (1, 70), (1, 60), (1, 50)
  , (0.9, 85), (0.8, 85), (0.7, 80), (0.6, 80), (0.5, 75)
  , (0.4, 70), (0.3, 65) ]

/-- The strategy loop of poster.py lines 328-353: attempt each strategy in
order; `attempt` abstracts the copy / resize / JPEG-encode work of one
iteration, with `Except.error` modelling an exception raised inside it,
which aborts the whole function and falls back to the original bytes
`orig`.  The first result within `max_size` is returned immediately; when
the list is exhausted the last attempt's bytes (the loop variable
`result_data` after the loop) are returned. -/
def tryStrategies (attempt : Rat × Nat → Except Unit (List Nat))
    (max_size : Nat) (orig : List Nat) : List (Rat × Nat) → List Nat
  | [] => orig
  | s :: rest =>
    match attempt s with
    | Except.error _ => orig
    | Except.ok d =>
      if d.length ≤ max_size then d
      else
        match rest with
        | [] => d
        | _ :: _ => tryStrategies attempt max_size orig rest

/-- Embedding of `resize_image_if_needed` (poster.py lines 282-358).
`attempt` abstracts the PIL work of one strategy iteration; `open_ok`
models whether `Image.open` and the colour-mode flattening (lines
295-307) succeed — when they raise, the `except` branch returns the
original bytes.  Bytes are a `List Nat` and sizes are list lengths. -/
def resize_image_if_needed (attempt : Rat × Nat → Except Unit (List Nat))
    (open_ok : Bool) (image_data : List Nat) (max_size : Nat) : List Nat :=
  if image_data.length ≤ max_size then image_data
  else if open_ok = false then image_data
  else tryStrategies attempt max_size image_data strategies

/-- Helper: one non-fitting successful attempt followed by a non-empty rest
continues the loop on the rest. -/
theorem tryStrategies_cons_step (attempt : Rat × Nat → Except Unit (List Nat))
    (max_size : Nat) (orig : List Nat) (a : Rat × Nat) (l : List (Rat × Nat))
    (d : List Nat) (hok : attempt a = Except.ok d) (hbig : max_size < d.length)
    (hl : l ≠ []) :
    tryStrategies attempt max_size orig (a :: l) =
      tryStrategies attempt max_size orig l := by
  cases l with
  | nil => exact absurd rfl hl
  | cons b t =>
    simp only [tryStrategies, hok]
    rw [if_neg (by omega)]

/-- Helper: when every attempt succeeds and some strategy fits the budget,
the loop returns the bytes of the first fitting strategy. -/
theorem tryStrategies_first_fit (enc : Rat × Nat → List Nat)
    (max_size : Nat) (orig : List Nat) :
    ∀ (l : List (Rat × Nat)) (s : Rat × Nat),
      l.find? (fun s => (enc s).length ≤ max_size) = some s →
      tryStrategies (fun s => Except.ok (enc s)) max_size orig l = enc s := by
  intro l
  induction l with
  | nil => intro s h; simp at h
  | cons a rest ih =>
    intro s h
    rw [List.find?_cons] at h
    by_cases hfit : (enc a).length ≤ max_size
    · rw [decide_eq_true hfit] at h
      have ha : a = s := by simpa using h
      subst ha
      simp [tryStrategies, hfit]
    · rw [decide_eq_false hfit] at h
      have hrec := ih s h
      have hne : rest ≠ [] := by
        intro hnil
        rw [hnil] at h
        simp at h
      rw [tryStrategies_cons_step _ _ _ _ _ (enc a) rfl (by omega) hne]
      exact hrec

/-- Helper: when every attempt succeeds and no strategy fits the budget,
the loop returns the bytes of the last strategy tried. -/
theorem tryStrategies_none_fit (enc : Rat × Nat → List Nat)
    (max_size : Nat) (orig : List Nat) :
    ∀ l : List (Rat × Nat),
      l.find? (fun s => (enc s).length ≤ max_size) = none →
      tryStrategies (fun s => Except.ok (enc s)) max_size orig l =
        (l.getLast?.map enc).getD orig := by
  intro l
  induction l with
  | nil => intro h; simp [tryStrategies]
  | cons a rest ih =>
    intro h
    rw [List.find?_cons] at h
    by_cases hfit : (enc a).length ≤ max_size
    · rw [decide_eq_true hfit] at h
      simp at h
    · rw [decide_eq_false hfit] at h
      have hrec := ih h
      cases rest with
      | nil =>
        simp [tryStrategies, hfit]
      | cons b t =>
        rw [tryStrategies_cons_step _ _ _ _ _ (enc a) rfl (by omega) (by simp)]
        rw [hrec, List.getLast?_cons_cons]

/-- Helper: an exception inside the loop, at the first strategy not cut off
by an earlier fit, makes the whole function fall back to the original
bytes. -/
theorem tryStrategies_exception (attempt : Rat × Nat → Except Unit (List Nat))
    (enc : Rat × Nat → List Nat) (max_size : Nat) (orig : List Nat) :
    ∀ (front : List (Rat × Nat)) (s : Rat × Nat) (rest : List (Rat × Nat)),
      (∀ x ∈ front, attempt x = Except.ok (enc x) ∧ max_size < (enc x).length) →
      attempt s = Except.error () →
      tryStrategies attempt max_size orig (front ++ s :: rest) = orig := by
  intro front
  induction front with
  | nil =>
    intro s rest _ herr
    simp [tryStrategies, herr]
  | cons a f ih =>
    intro s rest hfront herr
    obtain ⟨hok, hbig⟩ := hfront a (List.mem_cons_self a f)
    have hrec := ih s rest (fun x hx => hfront x (List.mem_cons_of_mem a hx)) herr
    rw [List.cons_append]
    rw [tryStrategies_cons_step _ _ _ _ _ (enc a) hok hbig (by simp)]
    exact hrec

/-- Claim C4: the contract of `resize_image_if_needed` — input within
budget is returned byte-identical; the strategy table is exactly
`(1.0,70),(1.0,60),(1.0,50),(0.9,85),(0.8,85),(0.7,80),(0.6,80),(0.5,75),(0.4,70),(0.3,65)`
tried in that order; with all attempts succeeding, the first attempt whose
encoded size fits the budget is returned immediately, and if none fits the
last (smallest, factor 0.3) attempt is returned; a failure while opening or
flattening the image, or an exception at any attempt the loop actually
reaches, returns the original bytes unchanged. -/
theorem C4_resize_contract :
    strategies = [ (1, 70), (1, 60), (1, 50), (0.9, 85), (0.8, 85)
                 , (0.7, 80), (0.6, 80), (0.5, 75), (0.4, 70), (0.3, 65) ] ∧
    strategies.getLast? = some (0.3, 65) ∧
    (∀ (attempt : Rat × Nat → Except Unit (List Nat)) (o : Bool)
        (data : List Nat) (m : Nat), data.length ≤ m →
      resize_image_if_needed attempt o data m = data) ∧
    (∀ (attempt : Rat × Nat → Except Unit (List Nat)) (data : List Nat)
        (m : Nat), m < data.length →
      resize_image_if_needed attempt false data m = data) ∧
    (∀ (enc : Rat × Nat → List Nat) (data : List Nat) (m : Nat)
        (s : Rat × Nat), m < data.length →
      strategies.find? (fun x => (enc x).length ≤ m) = some s →
      resize_image_if_needed (fun x => Except.ok (enc x)) true data m = enc s) ∧
    (∀ (enc : Rat × Nat → List Nat) (data : List Nat) (m : Nat),
        m < data.length →
      strategies.find? (fun x => (enc x).length ≤ m) = none →
      resize_image_if_needed (fun x => Except.ok (enc x)) true data m =
        enc (0.3, 65)) ∧
    (∀ (attempt : Rat × Nat → Except Unit (List Nat))
        (enc : Rat × Nat → List Nat) (data : List Nat) (m : Nat)
        (front : List (Rat × Nat)) (s : Rat × Nat) (rest : List (Rat × Nat)),
        m < data.length →
      strategies = front ++ s :: rest →
      (∀ x ∈ front, attempt x = Except.ok (enc x) ∧ m < (enc x).length) →
      attempt s = Except.error () →
      resize_image_if_needed attempt true data m = data) := by
  refine ⟨rfl, rfl, ?_, ?_, ?_, ?_, ?_⟩
  · intro attempt o data m hm
    simp [resize_image_if_needed, hm]
  · intro attempt data m hm
    rw [resize_image_if_needed, if_neg (by omega), if_pos rfl]
  · intro enc data m s hm hfind
    rw [resize_image_if_needed, if_neg (by omega), if_neg (by simp)]
    exact tryStrategies_first_fit enc m data strategies s hfind
  · intro enc data m hm hfind
    rw [resize_image_if_needed, if_neg (by omega), if_neg (by simp)]
    rw [tryStrategies_none_fit enc m data strategies hfind]
    rfl
  · intro attempt enc data m front s rest hm hsplit hfront herr
    rw [resize_image_if_needed, if_neg (by omega), if_neg (by simp)]
    rw [hsplit]
    exact tryStrategies_exception attempt enc m data front s rest hfront herr

/-- Claim C4, witness: concrete runs of the four interesting behaviours —
bytes already within budget are returned untouched even when every attempt
would raise; a search over budget returns the first fitting attempt
(strategy `(1.0, 60)`); a search where nothing fits returns the last
attempt; an exception at the first attempt falls back to the original
bytes. -/
theorem C4_witness :
    resize_image_if_needed (fun _ => Except.error ()) true
      (List.replicate 5 0) 10 = List.replicate 5 0 ∧
    resize_image_if_needed
      (fun x => Except.ok (if x = ((1 : Rat), 60) then List.replicate 7 0
        else List.replicate 20 0)) true (List.replicate 11 0) 10 =
      List.replicate 7 0 ∧
    resize_image_if_needed (fun _ => Except.ok (List.replicate 20 0)) true
      (List.replicate 11 0) 10 = List.replicate 20 0 ∧
    resize_image_if_needed (fun _ => Except.error ()) true
      (List.replicate 11 0) 10 = List.replicate 11 0 := by
  refine ⟨?_, ?_, ?_, ?_⟩
  · exact C4_resize_contract.2.2.1 _ true _ 10 (by decide)
  · have h := C4_resize_contract.2.2.2.2.1
      (fun x => if x = ((1 : Rat), 60) then List.replicate 7 0
        else List.replicate 20 0)
      (List.replicate 11 0) 10 ((1 : Rat), 60) (by decide) (by decide)
    simpa using h
  · have h := C4_resize_contract.2.2.2.2.2.1
      (fun _ => List.replicate 20 0) (List.replicate 11 0) 10
      (by decide) (by decide)
    exact h
  · exact C4_resize_contract.2.2.2.2.2.2
      (fun _ => Except.error ()) (fun _ => []) (List.replicate 11 0) 10
      [] (1, 70)
      [ (1, 60), (1, 50), (0.9, 85), (0.8, 85), (0.7, 80), (0.6, 80)
      , (0.5, 75), (0.4, 70), (0.3, 65) ]
      (by decide) rfl (by intro x hx; simp at hx) rfl

/-- One catalog row as `csv.DictReader` yields it to `main`: the values of
the `title`, `url` and `hashtags` columns (a missing column reads as the
empty string via `.get`). -/
structure Row where
  title : List Char
  url : List Char
  hashtags : List Char
deriving DecidableEq

/-- The observable outcome of one run of `main`: the `sys.exit` status
taken, if any, and the index written to the state file by `update_state`,
if the state write was reached. -/
structure MainResult where
  exit : Option Nat
  written : Option Nat
deriving DecidableEq

/-- Embedding of the control flow of `main` (poster.py lines 24-59) around
its external collaborators.  `cred_ok` models the presence of both
credential environment variables; `posts` is the `load_posts` outcome
(`none`: unreadable catalog, which exits inside `load_posts`);
`last` is `state.get('last_row_index', -1)`; `submission_ok` models
`post_to_bluesky` — `false` is an authentication or record-creation
failure, which exits with status 1 before returning.  `update_state`
(the state write, with the new index) runs strictly after
`post_to_bluesky` has returned successfully; `commit_changes` is ignored
as pure persistence of the already-written file. -/
def mainRun (cred_ok : Bool) (posts : Option (List Row)) (last : Int)
    (submission_ok : Bool) : MainResult :=
  if cred_ok = false then { exit := some 1, written := none }
  else
    match posts with
    | none => { exit := some 1, written := none }
    | some rows =>
      if rows = [] then { exit := some 0, written := none }
      else
        match rows.get? ((last + 1) % (rows.length : Int)).toNat with
        | none => { exit := some 1, written := none }
        | some post =>
          match create_post_content post.title post.url post.hashtags with
          | none => { exit := some 1, written := none }
          | some _ =>
            if submission_ok then
              { exit := none
              , written := some ((last + 1) % (rows.length : Int)).toNat }
            else { exit := some 1, written := none }

/-- Helper: a run of `main` ends in one of three shapes — a fatal exit with
no state write, the clean empty-catalog exit with no state write, or a
successful submission followed by the state write of the selected index. -/
theorem mainRun_cases (cred_ok : Bool) (posts : Option (List Row)) (last : Int)
    (submission_ok : Bool) :
    mainRun cred_ok posts last submission_ok =
      { exit := some 1, written := none } ∨
    mainRun cred_ok posts last submission_ok =
      { exit := some 0, written := none } ∨
    (submission_ok = true ∧ ∃ rows, posts = some rows ∧ rows ≠ [] ∧
      mainRun cred_ok posts last submission_ok =
        { exit := none
        , written := some ((last + 1) % (rows.length : Int)).toNat }) := by
  unfold mainRun
  split
  · exact Or.inl rfl
  · split
    · exact Or.inl rfl
    · next rows =>
      split
      · exact Or.inr (Or.inl rfl)
      · next hne =>
        split
        · exact Or.inl rfl
        · split
          · exact Or.inl rfl
          · split
            · next hsub => exact Or.inr (Or.inr ⟨hsub, rows, rfl, hne, rfl⟩)
            · exact Or.inl rfl

/-- Claim C8: the persisted cycle state is written only after the
record-creation submission has succeeded — on a submission failure or any
fatal input error before it, `main` writes no state (so the unchanged
`last` makes the next run select the same entry), and whenever state is
written the run succeeded (no exit status) and the written index is
exactly the entry selected from the unchanged `last`. -/
theorem C8_state_after_submission (cred_ok : Bool) (posts : Option (List Row))
    (last : Int) (submission_ok : Bool) :
    (submission_ok = false →
      (mainRun cred_ok posts last submission_ok).written = none) ∧
    (∀ idx, (mainRun cred_ok posts last submission_ok).written = some idx →
      submission_ok = true ∧
      (mainRun cred_ok posts last submission_ok).exit = none ∧
      ∃ rows, posts = some rows ∧ rows ≠ [] ∧
        idx = ((last + 1) % (rows.length : Int)).toNat) := by
  rcases mainRun_cases cred_ok posts last submission_ok with
    hc | hc | ⟨hsub, rows, hp, hne, hc⟩
  · refine ⟨fun _ => by rw [hc], fun idx hw => ?_⟩
    rw [hc] at hw
    exact absurd hw (by simp)
  · refine ⟨fun _ => by rw [hc], fun idx hw => ?_⟩
    rw [hc] at hw
    exact absurd hw (by simp)
  · constructor
    · intro hfalse
      rw [hsub] at hfalse
      exact absurd hfalse (by simp)
    · intro idx hw
      rw [hc] at hw
      simp only [Option.some.injEq] at hw
      exact ⟨hsub, by rw [hc], rows, hp, hne, hw.symm⟩

/-- Claim C8, witness: with one valid catalog row and starting sentinel
state, a failed submission writes no state, and a successful one exits
cleanly having written index 0. -/
theorem C8_witness :
    (mainRun true
      (some [ { title := "T".toList, url := "U".toList, hashtags := [] } ])
      (-1) false).written = none ∧
    mainRun true
      (some [ { title := "T".toList, url := "U".toList, hashtags := [] } ])
      (-1) true = { exit := none, written := some 0 } := by
  constructor
  · exact (C8_state_after_submission true
      (some [ { title := "T".toList, url := "U".toList, hashtags := [] } ])
      (-1) false).1 rfl
  · decide
